import Mathlib

/-!
Verification of the `rag_chat` repository: a retrieval-augmented
conversational agent with a Next.js frontend.  Frontend strings are
modelled as `List Char` (the sequence of code points seen by the
JavaScript runtime); `TextDecoder` with `stream: true` guarantees that
byte-level re-chunking coincides with character-level re-chunking of the
decoded text, so reader chunks are modelled as `List Char` values.
-/

/-! ## Definitions: shallow embedding of the frontend sources and the
spec-modelled backend components -/

/-- JavaScript string, modelled as its list of characters. -/
abbrev JSStr := List Char

/-- Prepend a character to the first part of a split result; used to state
`splitBlank` structurally (a non-separator character extends the current
part). -/
def consHead (c : Char) : List (List Char) → List (List Char)
  | [] => [[c]]
  | p :: ps => (c :: p) :: ps

/-- JS `s.split('\n\n')` from `streamChat`'s reader loop: greedy
left-to-right scan for the two-character separator; non-overlapping
matches; always returns a non-empty list. -/
def splitBlank : List Char → List (List Char)
  | [] => [[]]
  | [c] => [[c]]
  | c1 :: c2 :: rest =>
    if c1 = '\n' ∧ c2 = '\n' then [] :: splitBlank rest
    else consHead c1 (splitBlank (c2 :: rest))

/-- The fragment kept as the residual buffer after a split: JS
`parts.pop() ?? ''`. -/
def lastPart (s : List Char) : List Char :=
  ((splitBlank s).getLast?).getD []

/-- JS whitespace test used by `String.prototype.trim` (ASCII portion;
the source data never contains the exotic Unicode space characters). -/
def jsWhite (c : Char) : Bool :=
  c = ' ' || c = '\t' || c = '\n' || c = '\r' || c = '\x0b' || c = '\x0c'

/-- JS `s.trim()`: strip whitespace from both ends. -/
def jsTrim (s : List Char) : List Char :=
  ((s.dropWhile jsWhite).reverse.dropWhile jsWhite).reverse

/-- JS `s.replace(pat, '')` for a non-empty string pattern: remove the
first occurrence of `pat`, scanning left to right; if the pattern does not
occur the string is returned unchanged. -/
def removeFirst (pat : List Char) : List Char → List Char
  | [] => []
  | c :: rest =>
    if pat.isPrefixOf (c :: rest) then (c :: rest).drop pat.length
    else c :: removeFirst pat rest

/-- The `data:` marker of a server-sent event line. -/
def dataTag : List Char := ['d', 'a', 't', 'a', ':']

/-- Processing of one completed block in `streamChat`'s loop body:
`const line = chunk.trim(); if (!line.startsWith('data:')) continue;`
then `JSON.parse(line.replace('data:', '').trim())` is handed to
`onEvent`.  The value returned here is the exact text handed to
`JSON.parse`; `none` means the block is skipped. -/
def blockEvent (block : List Char) : Option (List Char) :=
  let line := jsTrim block
  if dataTag.isPrefixOf line then some (jsTrim (removeFirst dataTag line)) else none

/-- Denotation: the event payloads contained in a complete byte stream.
The parts produced by splitting on the blank line, except the last
(unterminated) one, filtered through `blockEvent`, in stream order. -/
def sseEvents (s : List Char) : List (List Char) :=
  ((splitBlank s).dropLast).filterMap blockEvent

/-- The reader loop of `streamChat`: `buffer += decoder.decode(value)`,
`parts = buffer.split('\n\n')`, `buffer = parts.pop() ?? ''`, and each
completed part is processed by the loop body (`blockEvent`).  When the
stream ends (`done`), the residual buffer is discarded. -/
def streamChatAux : List Char → List (List Char) → List (List Char)
  | _, [] => []
  | buffer, c :: cs =>
    let parts := splitBlank (buffer ++ c)
    parts.dropLast.filterMap blockEvent ++
      streamChatAux ((parts.getLast?).getD []) cs

/-- The full sequence of payload texts delivered by `streamChat` for a
given sequence of reader chunks, starting from the empty buffer. -/
def streamChatEvents (chunks : List (List Char)) : List (List Char) :=
  streamChatAux [] chunks

/-- Field `role: 'user' | 'assistant'` of a `ChatMessage` (`types.ts`). -/
inductive Role
  | user
  | assistant
deriving DecidableEq

/-- Field `kind: 'call' | 'return'` of a `ToolLog` entry (`types.ts`). -/
inductive ToolKind
  | call
  | ret
deriving DecidableEq

/-- TS `interface DocumentRef { id; filename; url }` (`types.ts`). -/
structure DocumentRef where
  id : JSStr
  filename : JSStr
  url : JSStr
deriving DecidableEq

/-- TS `interface ChunkRef { chunk_id; text; document_id? }` (`types.ts`). -/
structure ChunkRef where
  chunk_id : JSStr
  text : JSStr
  document_id : Option JSStr
deriving DecidableEq

/-- TS `interface ToolLog { kind: 'call' | 'return'; tool: string;
args?: unknown; content?: unknown }` (`types.ts`).  The `unknown`-typed
payloads are modelled by their JSON text; what matters for the declared
shape is that `args` and `content` are optional while `kind` and `tool`
are mandatory. -/
structure ToolLog where
  kind : ToolKind
  tool : JSStr
  args : Option JSStr
  content : Option JSStr
deriving DecidableEq

/-- TS `interface Session { id; title?: string | null; created_at;
updated_at }` (`types.ts`). -/
structure Session where
  id : JSStr
  title : Option (Option JSStr)
  created_at : JSStr
  updated_at : JSStr
deriving DecidableEq

/-- TS `interface DocumentItem { id; filename; size; created_at; url }`
(`types.ts`). -/
structure DocumentItem where
  id : JSStr
  filename : JSStr
  size : Nat
  created_at : JSStr
  url : JSStr
deriving DecidableEq

/-- TS `interface ChatMessage` (`types.ts`): `id?`, `role`, `content`,
`created_at?`, `documents?`, `support?`, `tools?`, `chunks?`, `toolLogs?`,
`tool_logs?`. -/
structure ChatMessage where
  id : Option JSStr
  role : Role
  content : JSStr
  created_at : Option JSStr
  documents : Option (List DocumentRef)
  support : Option Bool
  tools : Option (List JSStr)
  chunks : Option (List ChunkRef)
  toolLogs : Option (List ToolLog)
  tool_logs : Option (List ToolLog)
deriving DecidableEq

/-- TS `type ChatStreamEvent` (`types.ts`): the three stream event
variants.  The `final` variant declares `session_id`, `text`, `documents`,
`support`, `tools`, `chunks`, and an optional `tool_logs?`. -/
inductive ChatStreamEvent
  | delta (token : JSStr)
  | final (session_id : JSStr) (text : JSStr) (documents : List DocumentRef)
      (support : Bool) (tools : List JSStr) (chunks : List ChunkRef)
      (tool_logs : Option (List ToolLog))
  | tool (logs : List ToolLog) (doc_ids : List JSStr) (chunks : List ChunkRef)
deriving DecidableEq

/-- Discriminator for the terminal variant (`event.type === 'final'`). -/
def isFinalEv : ChatStreamEvent → Bool
  | ChatStreamEvent.final _ _ _ _ _ _ _ => true
  | _ => false

/-- The `tool_logs` payload of a terminal event (`none` on the other
variants, `some tl` with `tl` the declared optional field on `final`). -/
def finalToolLogs : ChatStreamEvent → Option (Option (List ToolLog))
  | ChatStreamEvent.final _ _ _ _ _ _ tl => some tl
  | _ => none

/-- The part of a `fetch` `Response` the client code reads: `ok`,
`statusText`, the body text (`await res.text()`, read on the error path),
the parsed JSON body (`res.json()`, read on the success path; parsing is
modelled as total at this granularity), and the streaming body
(`res.body`, a sequence of reader chunks, absent when the response has no
body). -/
structure Response (α : Type) where
  ok : Bool
  statusText : JSStr
  bodyText : JSStr
  json : α
  body : Option (List JSStr)
deriving DecidableEq

/-- Embeds `handleResponse` (`api.ts`): `if (!res.ok) { const text =
await res.text(); throw new Error(text || res.statusText) } return res`.
JS `||` takes the status text exactly when the body text is the empty
string. -/
def handleResponse {α : Type} (res : Response α) : Except JSStr (Response α) :=
  if res.ok then Except.ok res
  else Except.error (if res.bodyText = [] then res.statusText else res.bodyText)

/-- Embeds `fetchSessions()` (`api.ts`): fetch, then `handleResponse`,
then `res.json()`. -/
def fetchSessions (res : Response (List Session)) : Except JSStr (List Session) :=
  (handleResponse res).map fun r => r.json

/-- Embeds `createSession(title?)` (`api.ts`): POST then `handleResponse`
then `res.json()`.  The request payload does not influence the response
handling. -/
def createSession (_title : Option (Option JSStr)) (res : Response Session) :
    Except JSStr Session :=
  (handleResponse res).map fun r => r.json

/-- Embeds `renameSession(sessionId, title)` (`api.ts`). -/
def renameSession (_sessionId _title : JSStr) (res : Response Session) :
    Except JSStr Session :=
  (handleResponse res).map fun r => r.json

/-- Embeds `deleteSession(sessionId)` (`api.ts`): DELETE then
`handleResponse`; the result is discarded. -/
def deleteSession (_sessionId : JSStr) (res : Response Unit) : Except JSStr Unit :=
  (handleResponse res).map fun _ => ()

/-- Embeds `fetchMessages(sessionId)` (`api.ts`). -/
def fetchMessages (_sessionId : JSStr) (res : Response (List ChatMessage)) :
    Except JSStr (List ChatMessage) :=
  (handleResponse res).map fun r => r.json

/-- Embeds `fetchDocuments()` (`api.ts`). -/
def fetchDocuments (res : Response (List DocumentItem)) : Except JSStr (List DocumentItem) :=
  (handleResponse res).map fun r => r.json

/-- Embeds `deleteDocument(documentId)` (`api.ts`). -/
def deleteDocument (_documentId : JSStr) (res : Response Unit) : Except JSStr Unit :=
  (handleResponse res).map fun _ => ()

/-- Embeds `uploadDocument(file)` (`api.ts`): POST of a form;
`handleResponse`; the result is discarded. -/
def uploadDocument (_file : JSStr) (res : Response Unit) : Except JSStr Unit :=
  (handleResponse res).map fun _ => ()

/-- The message of the error thrown by `streamChat` when the response has
no body: `throw new Error('No stream body')`. -/
def noStreamBodyMsg : JSStr :=
  ['N', 'o', ' ', 's', 't', 'r', 'e', 'a', 'm', ' ', 'b', 'o', 'd', 'y']

/-- Embeds `streamChat(payload, onEvent)` (`api.ts`): POST then
`handleResponse`; then `if (!res.body) throw new Error('No stream body')`;
then the reader loop delivers the SSE payload texts (`streamChatEvents`).
The returned list is the sequence of texts handed to
`JSON.parse`/`onEvent`, in order. -/
def streamChat (_payload : Option JSStr × JSStr) (res : Response Unit) :
    Except JSStr (List JSStr) :=
  match handleResponse res with
  | Except.error e => Except.error e
  | Except.ok r =>
    match r.body with
    | none => Except.error noStreamBodyMsg
    | some chunks => Except.ok (streamChatEvents chunks)

/-- The React state of `ChatView` relevant to sending and streaming:
`sessionId`, `messages`, `input`, `streaming` (`ChatView.tsx`). -/
structure ChatState where
  sessionId : Option JSStr
  messages : List ChatMessage
  input : JSStr
  streaming : Bool
deriving DecidableEq

/-- Embeds `appendMessage` (`ChatView.tsx`):
`setMessages(prev => [...prev, msg])`. -/
def appendMessage (msg : ChatMessage) (prev : List ChatMessage) : List ChatMessage :=
  prev ++ [msg]

/-- Embeds `updateAssistant(updater, docs?, tools?, chunks?, toolLogs?)`
(`ChatView.tsx`): if the last message exists and is an assistant message,
replace it in place, applying `updater` to its content and `?? current`
defaulting for the metadata fields; otherwise push a fresh assistant
message with content `updater('')`. -/
def updateAssistant (updater : JSStr → JSStr) (docs : Option (List DocumentRef))
    (tools : Option (List JSStr)) (chunks : Option (List ChunkRef))
    (toolLogs : Option (List ToolLog)) (prev : List ChatMessage) : List ChatMessage :=
  match prev.getLast? with
  | some current =>
    if current.role = Role.assistant then
      prev.dropLast ++ [{ current with
        content := updater current.content,
        documents := docs.orElse fun _ => current.documents,
        tools := tools.orElse fun _ => current.tools,
        chunks := chunks.orElse fun _ => current.chunks,
        toolLogs := toolLogs.orElse fun _ => current.toolLogs }]
    else
      prev ++ [{ id := none, role := Role.assistant, content := updater [],
                 created_at := none, documents := docs, support := none, tools := tools,
                 chunks := chunks, toolLogs := toolLogs, tool_logs := none }]
  | none =>
    prev ++ [{ id := none, role := Role.assistant, content := updater [],
               created_at := none, documents := docs, support := none, tools := tools,
               chunks := chunks, toolLogs := toolLogs, tool_logs := none }]

/-- The `onEvent` callback passed to `streamChat` by `handleSend`
(`ChatView.tsx`): a `delta` appends its token to the in-progress assistant
message; `final` stores the session id and replaces the assistant content
with the full text (passing the documents, tools, chunks and optional tool
logs); a `tool` notice keeps the content and attaches chunks and logs.
The navigation side effect (`router.replace`) is outside the modelled
state. -/
def onStreamEvent (st : ChatState) (ev : ChatStreamEvent) : ChatState :=
  match ev with
  | ChatStreamEvent.delta token =>
    { st with messages := updateAssistant (fun prev => prev ++ token)
                            none none none none st.messages }
  | ChatStreamEvent.final sid text docs _support tools chunks tlogs =>
    { st with sessionId := some sid,
              messages := updateAssistant (fun _ => text)
                            (some docs) (some tools) (some chunks) tlogs st.messages }
  | ChatStreamEvent.tool logs _docIds chunks =>
    { st with messages := updateAssistant (fun prev => prev)
                            none none (some chunks) (some logs) st.messages }

/-- The synchronous prefix of `handleSend` (`ChatView.tsx`), up to the
point the request is issued: `const text = input.trim(); if (!text ||
streaming) return; setStreaming(true); setInput(''); appendMessage({role:
'user', content: text})`; the second component is the `streamChat` request
payload `{session_id, message}` (`none` when no request is made). -/
def handleSend (st : ChatState) : ChatState × Option (Option JSStr × JSStr) :=
  let text := jsTrim st.input
  if text = [] ∨ st.streaming then (st, none)
  else
    ({ st with streaming := true, input := [],
               messages := appendMessage
                 { id := none, role := Role.user, content := text,
                   created_at := none, documents := none, support := none, tools := none,
                   chunks := none, toolLogs := none, tool_logs := none } st.messages },
      some (st.sessionId, text))

/-- Modelled from the spec (the Python backend `app/` is not part of the
repository snapshot): one scored retrieval result `{document_id, chunk_id,
score}` (§3 CacheEntry, §6 Vector Index query).  Scores are modelled as
integers; only their ordering against the minimum-score floor matters. -/
structure ScoredChunk where
  chunk_id : JSStr
  document_id : JSStr
  score : Int
deriving DecidableEq

/-- Modelled from the spec: the chunks that clear the minimum-score floor
(§4.4: an empty result after this filter is the signal path into the
escalation decision). -/
def floorFilter (minScore : Int) (rs : List ScoredChunk) : List ScoredChunk :=
  rs.filter fun c => minScore ≤ c.score

/-- Modelled from the spec: the Retrieval Cache backing store (§4.3),
missing from the snapshot; it maps a normalized, language-tagged query key
to a stored ResultSet and its `expires_at` instant.  Time is an abstract
discrete clock. -/
def CacheStore : Type := JSStr → Option (List ScoredChunk × Nat)

/-- Modelled from the spec: `get(normalized_query)` (§4.3): expiry is
passive, checked on read; an entry at or past `expires_at` is logically
absent. -/
def cacheGet (store : CacheStore) (key : JSStr) (now : Nat) : Option (List ScoredChunk) :=
  match store key with
  | some (v, expiresAt) => if now < expiresAt then some v else none
  | none => none

/-- Modelled from the spec: `put(normalized_query, ResultSet, ttl)`
(§4.3): upsert with TTL reset; the new entry expires `ttl` after the
write, regardless of any previous entry under the same key. -/
def cachePut (store : CacheStore) (key : JSStr) (v : List ScoredChunk) (ttl : Nat)
    (now : Nat) : CacheStore :=
  fun k => if k = key then some (v, now + ttl) else store k

/-- Modelled from the spec: the orchestrator states (§4.5):
`START → (DIRECT_ANSWER | RETRIEVING) → (ANSWERING | ESCALATED) → DONE`. -/
inductive OState
  | START
  | DIRECT_ANSWER
  | RETRIEVING
  | ANSWERING
  | ESCALATED
  | DONE
deriving DecidableEq

/-- Modelled from the spec: the LLM answers with plain text (a stream of
tokens) or invokes one of the two tools (§6 LLM call, §4.5). -/
inductive LLMAction
  | reply (tokens : List JSStr)
  | retrieveDocument (query : JSStr)
  | transferToSupport (reason : JSStr)

/-- Modelled from the spec: an item of the conversation context handed to
the LLM: the user message or an appended tool result (§4.5). -/
inductive CtxItem
  | userMsg (text : JSStr)
  | toolResult (rs : List ScoredChunk)

/-- Modelled from the spec: the result slot of a ToolCallRecord: a
retrieval result set, or the acknowledgement of a support hand-off. -/
inductive ToolResultV
  | chunks (rs : List ScoredChunk)
  | ack
deriving DecidableEq

/-- Modelled from the spec: `ToolCallRecord: {kind: call|return,
tool_name, arguments, result}` (§3); a `call` record has no result yet. -/
structure ToolCallRecord where
  kind : ToolKind
  tool_name : JSStr
  arguments : JSStr
  result : Option ToolResultV
deriving DecidableEq

/-- Tool name `retrieveDocument`. -/
def retrieveName : JSStr :=
  ['r', 'e', 't', 'r', 'i', 'e', 'v', 'e', 'D', 'o', 'c', 'u', 'm', 'e', 'n', 't']

/-- Tool name `transferToSupport`. -/
def supportName : JSStr :=
  ['t', 'r', 'a', 'n', 's', 'f', 'e', 'r', 'T', 'o', 'S', 'u', 'p', 'p', 'o', 'r', 't']

/-- Modelled from the spec: the fixed hand-off notice emitted when a turn
escalates (§4.5). -/
def handoffText : JSStr := ['h', 'a', 'n', 'd', 'o', 'f', 'f']

/-- A backend tool-call record rendered as the surfaced `ToolLog` shape. -/
def toFrontLog (r : ToolCallRecord) : ToolLog :=
  { kind := r.kind, tool := r.tool_name, args := some r.arguments,
    content := r.result.map fun res =>
      match res with
      | ToolResultV.chunks rs => (rs.map fun c => c.chunk_id).flatten
      | ToolResultV.ack => [] }

/-- A retrieval result rendered as a `ChunkRef` for the stream events. -/
def toChunkRef (c : ScoredChunk) : ChunkRef :=
  { chunk_id := c.chunk_id, text := [], document_id := some c.document_id }

/-- A retrieval result rendered as a cited `DocumentRef`. -/
def toDocRef (c : ScoredChunk) : DocumentRef :=
  { id := c.document_id, filename := [], url := [] }

/-- The terminal stream event of a turn (§6: one terminal event carrying
the session id, the full text and the structured metadata). -/
def mkFinalEvent (sid : JSStr) (text : JSStr) (support : Bool)
    (log : List ToolCallRecord) (cited : List ScoredChunk) : ChatStreamEvent :=
  ChatStreamEvent.final sid text (cited.map toDocRef) support
    (log.map fun r => r.tool_name) (cited.map toChunkRef) (some (log.map toFrontLog))

/-- Modelled from the spec: the observable outcome of one agent turn: the
states entered (in order, ending in `DONE`), the decision state reached
before `DONE`, the ToolCallRecord sequence, every raw ResultSet obtained
from the Retrieval Engine (in call order), and the emitted stream
events. -/
structure TurnResult where
  states : List OState
  decision : OState
  log : List ToolCallRecord
  retrieved : List (List ScoredChunk)
  events : List ChatStreamEvent
deriving DecidableEq

/-- Modelled from the spec: the bounded tool-calling loop of the Agent
Orchestrator (§4.5), missing from the snapshot.  `fuel` is the remaining
tool-call budget.  A plain reply before any retrieval is `DIRECT_ANSWER`;
after a successful retrieval it is `ANSWERING` (its tokens are streamed as
deltas and assembled into the final text).  `transferToSupport` escalates.
A `retrieveDocument` call with exhausted budget forces escalation
(`ToolBudgetExceeded`); otherwise the Retrieval Engine is consulted, the
call and its result are appended to the tool log, a tool notice is
emitted, and a result set in which no chunk clears the floor (the empty
ResultSet signal of §4.4) forces escalation instead of handing the LLM a
chance to answer ungrounded; a non-empty result is appended to the
context and control returns to the LLM. -/
def agentLoopAux (llm : List CtxItem → LLMAction) (retrieve : JSStr → List ScoredChunk)
    (minScore : Int) (sid : JSStr) :
    Nat → List CtxItem → Bool → List ToolCallRecord → List (List ScoredChunk) → TurnResult
  | fuel, ctx, retrievedYet, accLog, accRet =>
    let cited := (accRet.map (floorFilter minScore)).flatten
    match llm ctx with
    | LLMAction.reply tokens =>
      if retrievedYet then
        { states := [OState.ANSWERING, OState.DONE], decision := OState.ANSWERING,
          log := accLog, retrieved := accRet,
          events := tokens.map ChatStreamEvent.delta ++
            [mkFinalEvent sid tokens.flatten false accLog cited] }
      else
        { states := [OState.DIRECT_ANSWER, OState.DONE], decision := OState.DIRECT_ANSWER,
          log := accLog, retrieved := accRet,
          events := tokens.map ChatStreamEvent.delta ++
            [mkFinalEvent sid tokens.flatten false accLog cited] }
    | LLMAction.transferToSupport reason =>
      let log := accLog ++
        [{ kind := ToolKind.call, tool_name := supportName, arguments := reason,
           result := none },
         { kind := ToolKind.ret, tool_name := supportName, arguments := reason,
           result := some ToolResultV.ack }]
      { states := [OState.ESCALATED, OState.DONE], decision := OState.ESCALATED,
        log := log, retrieved := accRet,
        events := [mkFinalEvent sid handoffText true log cited] }
    | LLMAction.retrieveDocument q =>
      match fuel with
      | 0 =>
        { states := [OState.ESCALATED, OState.DONE], decision := OState.ESCALATED,
          log := accLog, retrieved := accRet,
          events := [mkFinalEvent sid handoffText true accLog cited] }
      | Nat.succ fuel' =>
        let rs := retrieve q
        let filtered := floorFilter minScore rs
        let log := accLog ++
          [{ kind := ToolKind.call, tool_name := retrieveName, arguments := q,
             result := none },
           { kind := ToolKind.ret, tool_name := retrieveName, arguments := q,
             result := some (ToolResultV.chunks filtered) }]
        let toolEv := ChatStreamEvent.tool (log.map toFrontLog)
          (filtered.map fun c => c.document_id) (filtered.map toChunkRef)
        if filtered.isEmpty then
          { states := [OState.RETRIEVING, OState.ESCALATED, OState.DONE],
            decision := OState.ESCALATED, log := log, retrieved := accRet ++ [rs],
            events := [toolEv, mkFinalEvent sid handoffText true log
              ((( accRet ++ [rs]).map (floorFilter minScore)).flatten)] }
        else
          let r := agentLoopAux llm retrieve minScore sid fuel'
            (ctx ++ [CtxItem.toolResult filtered]) true log (accRet ++ [rs])
          { states := OState.RETRIEVING :: r.states, decision := r.decision,
            log := r.log, retrieved := r.retrieved, events := toolEv :: r.events }

/-- Modelled from the spec: one full agent turn (§4.5): the loop started
in `START` with the user message as context, no retrieval yet, an empty
tool log and the configured tool-call budget. -/
def agentTurn (llm : List CtxItem → LLMAction) (retrieve : JSStr → List ScoredChunk)
    (minScore : Int) (budget : Nat) (sid : JSStr) (userText : JSStr) : TurnResult :=
  let r := agentLoopAux llm retrieve minScore sid budget [CtxItem.userMsg userText]
    false [] []
  { r with states := OState.START :: r.states }

/-- A tool log in which records come in step order as a `call` record
(tool name and arguments, no result yet) immediately followed by the
matching `return` record (same tool and arguments, carrying the result),
one pair per executed step of the agent loop. -/
inductive PairedLog : List ToolCallRecord → Prop
  | nil : PairedLog []
  | pair (name args : JSStr) (res : ToolResultV) (rest : List ToolCallRecord) :
      PairedLog rest →
      PairedLog ({ kind := ToolKind.call, tool_name := name, arguments := args,
                   result := none } ::
                 { kind := ToolKind.ret, tool_name := name, arguments := args,
                   result := some res } :: rest)

/-- The concatenation of the delta tokens of an event sequence, in
arrival order. -/
def deltaTokens : List ChatStreamEvent → JSStr
  | [] => []
  | ChatStreamEvent.delta t :: es => t ++ deltaTokens es
  | _ :: es => deltaTokens es

/-- The message list does not end with an assistant message (the shape
`handleSend` establishes by appending the user message before the stream
starts). -/
def lastNotAssistant (msgs : List ChatMessage) : Bool :=
  match msgs.getLast? with
  | some m => m.role != Role.assistant
  | none => true

/-- An event sequence consisting of zero or more non-terminal events
followed by exactly one terminal event. -/
def EventsShaped (evs : List ChatStreamEvent) : Prop :=
  ∃ pre fev, evs = pre ++ [fev]
    ∧ (∀ e ∈ pre, isFinalEv e = false) ∧ isFinalEv fev = true

/-! ## Theorems -/

theorem consHead_ne_nil (c : Char) (l : List (List Char)) : consHead c l ≠ [] := by
  cases l <;> simp [consHead]

theorem splitBlank_ne_nil (s : List Char) : splitBlank s ≠ [] := by
  induction s using splitBlank.induct with
  | case1 => simp [splitBlank]
  | case2 c => simp [splitBlank]
  | case3 c1 c2 rest h ih => simp [splitBlank, h]
  | case4 c1 c2 rest h ih =>
    rw [splitBlank, if_neg h]
    exact consHead_ne_nil _ _

/-- If a split yields a single part, that part is the whole input. -/
theorem splitBlank_single {s p : List Char} (h : splitBlank s = [p]) : s = p := by
  induction s using splitBlank.induct generalizing p with
  | case1 => simpa [splitBlank] using h
  | case2 c => simpa [splitBlank] using h
  | case3 c1 c2 rest hnl ih =>
    rw [splitBlank, if_pos hnl] at h
    cases hsp : splitBlank rest with
    | nil => exact absurd hsp (splitBlank_ne_nil rest)
    | cons q qs => simp [hsp] at h
  | case4 c1 c2 rest hnl ih =>
    rw [splitBlank, if_neg hnl] at h
    cases hsp : splitBlank (c2 :: rest) with
    | nil => exact absurd hsp (splitBlank_ne_nil _)
    | cons q qs =>
      rw [hsp, consHead] at h
      cases h1 : qs with
      | cons _ _ => simp [h1] at h
      | nil =>
        subst h1
        obtain ⟨h2, h3⟩ := List.cons_eq_cons.mp h
        have := ih (p := q) hsp
        simp [← h2, ← h3, ← this]

theorem splitBlank_sep {c1 c2 : Char} (rest : List Char) (h : c1 = '\n' ∧ c2 = '\n') :
    splitBlank (c1 :: c2 :: rest) = [] :: splitBlank rest := by
  rw [splitBlank, if_pos h]

theorem splitBlank_nosep {c1 c2 : Char} (rest : List Char) (h : ¬(c1 = '\n' ∧ c2 = '\n')) :
    splitBlank (c1 :: c2 :: rest) = consHead c1 (splitBlank (c2 :: rest)) := by
  rw [splitBlank, if_neg h]

/-- Greedy splitting is compositional: splitting `a ++ b` first emits the
completed parts of `a` and then continues the scan on the residual buffer
of `a` followed by `b`.  This is the reason the incremental reader loop of
`streamChat` is insensitive to chunk boundaries. -/
theorem splitBlank_append (a b : List Char) :
    splitBlank (a ++ b) = (splitBlank a).dropLast ++ splitBlank (lastPart a ++ b) := by
  induction a using splitBlank.induct with
  | case1 => simp [splitBlank, lastPart]
  | case2 c => simp [splitBlank, lastPart]
  | case3 c1 c2 rest h ih =>
    obtain ⟨p, ps, hps⟩ := List.exists_cons_of_ne_nil (splitBlank_ne_nil rest)
    have e1 : (c1 :: c2 :: rest) ++ b = c1 :: c2 :: (rest ++ b) := by simp
    rw [e1, splitBlank_sep _ h, ih]
    simp only [lastPart, splitBlank_sep _ h, hps]
    simp [List.getLast?_cons_cons]
  | case4 c1 c2 rest h ih =>
    obtain ⟨p, ps, hps⟩ := List.exists_cons_of_ne_nil (splitBlank_ne_nil (c2 :: rest))
    have e1 : (c1 :: c2 :: rest) ++ b = c1 :: c2 :: (rest ++ b) := by simp
    have e2 : c2 :: (rest ++ b) = (c2 :: rest) ++ b := by simp
    rw [e1, splitBlank_nosep _ h, e2, ih]
    simp only [lastPart, splitBlank_nosep _ h, hps]
    cases ps with
    | nil =>
      have hsingle : c2 :: rest = p := splitBlank_single hps
      simp only [consHead, List.dropLast_single, List.nil_append,
        List.getLast?_singleton, Option.getD_some]
      have e3 : (c1 :: p) ++ b = c1 :: c2 :: (rest ++ b) := by
        rw [← hsingle]; simp
      rw [e3, splitBlank_nosep _ h, e2, ← hsingle]
      rfl
    | cons q qs =>
      simp only [consHead, List.getLast?_cons_cons, List.dropLast_cons₂]
      simp

/-- The residual buffer after a split contains no separator: splitting it
again yields a single part. -/
theorem splitBlank_lastPart (s : List Char) : splitBlank (lastPart s) = [lastPart s] := by
  induction s using splitBlank.induct with
  | case1 => simp [splitBlank, lastPart]
  | case2 c => simp [splitBlank, lastPart]
  | case3 c1 c2 rest h ih =>
    obtain ⟨p, ps, hps⟩ := List.exists_cons_of_ne_nil (splitBlank_ne_nil rest)
    simp only [lastPart, splitBlank_sep _ h, hps] at *
    simpa [List.getLast?_cons_cons] using ih
  | case4 c1 c2 rest h ih =>
    obtain ⟨p, ps, hps⟩ := List.exists_cons_of_ne_nil (splitBlank_ne_nil (c2 :: rest))
    simp only [lastPart, splitBlank_nosep _ h, hps] at ih ⊢
    cases ps with
    | nil =>
      have hsingle : c2 :: rest = p := splitBlank_single hps
      simp only [consHead, List.getLast?_singleton, Option.getD_some]
      rw [← hsingle, splitBlank_nosep _ h, hps]
      simp [consHead, hsingle]
    | cons q qs =>
      simpa [consHead, List.getLast?_cons_cons] using ih

theorem streamChatAux_eq (cs : List (List Char)) :
    ∀ buffer : List Char, splitBlank buffer = [buffer] →
      streamChatAux buffer cs = sseEvents (buffer ++ cs.flatten) := by
  induction cs with
  | nil =>
    intro buffer hb
    simp [streamChatAux, sseEvents, hb]
  | cons c cs ih =>
    intro buffer hb
    rw [streamChatAux]
    have hlast : ((splitBlank (buffer ++ c)).getLast?).getD [] = lastPart (buffer ++ c) := rfl
    rw [hlast, ih (lastPart (buffer ++ c)) (splitBlank_lastPart _)]
    have e1 : buffer ++ (c :: cs).flatten = (buffer ++ c) ++ cs.flatten := by simp
    rw [sseEvents, sseEvents, e1, splitBlank_append (buffer ++ c) cs.flatten]
    rw [List.dropLast_append_of_ne_nil _ (splitBlank_ne_nil _)]
    rw [List.filterMap_append]

/-- Claim C7: for every byte stream and every way of splitting it into
successive reader chunks, `streamChat` delivers to `onEvent` exactly the
payloads of the blank-line-terminated blocks whose trimmed text starts
with `data:`, in stream order, each payload being the text after the
`data:` marker (first occurrence removed, then trimmed) that is handed to
`JSON.parse`; blocks not terminated before the stream ends are never
delivered.  Consequently the delivered sequence depends only on the
concatenation of the chunks, not on the chunk boundaries (and the same
holds after applying any fixed `JSON.parse` function to each payload). -/
theorem streamChat_events_rechunking_invariant :
    (∀ chunks : List (List Char), streamChatEvents chunks = sseEvents chunks.flatten)
    ∧ (∀ chunks1 chunks2 : List (List Char), chunks1.flatten = chunks2.flatten →
        streamChatEvents chunks1 = streamChatEvents chunks2) := by
  have key : ∀ chunks : List (List Char), streamChatEvents chunks = sseEvents chunks.flatten := by
    intro chunks
    have := streamChatAux_eq chunks [] (by simp [splitBlank])
    simpa [streamChatEvents] using this
  refine ⟨key, ?_⟩
  intro chunks1 chunks2 h
  rw [key, key, h]

/-- Witness for C7 at a concrete stream: the text
`data: 1\n\ndata: 2\n\nleft` split in two different ways (including a
split in the middle of the blank-line separator) delivers the same two
payloads `1` and `2`, and the unterminated `left` block is dropped. -/
theorem streamChat_events_rechunking_invariant_witness :
    (['d', 'a', 't', 'a', ':', ' ', '1', '\n'] ++ ['\n', 'd', 'a', 't', 'a', ':', ' ',
        '2', '\n', '\n', 'l', 'e', 'f', 't'] : List Char)
      = ([['d', 'a', 't', 'a', ':', ' ', '1', '\n'],
          ['\n', 'd', 'a', 't', 'a', ':', ' ', '2', '\n', '\n', 'l', 'e', 'f', 't']] :
          List (List Char)).flatten
    ∧ streamChatEvents [['d', 'a', 't', 'a', ':', ' ', '1', '\n'],
        ['\n', 'd', 'a', 't', 'a', ':', ' ', '2', '\n', '\n', 'l', 'e', 'f', 't']]
      = streamChatEvents [['d', 'a', 't', 'a', ':', ' ', '1', '\n', '\n', 'd', 'a', 't',
          'a', ':', ' ', '2', '\n', '\n', 'l', 'e', 'f', 't']]
    ∧ streamChatEvents [['d', 'a', 't', 'a', ':', ' ', '1', '\n'],
        ['\n', 'd', 'a', 't', 'a', ':', ' ', '2', '\n', '\n', 'l', 'e', 'f', 't']]
      = [['1'], ['2']] := by
  refine ⟨by decide, ?_, by decide⟩
  exact streamChat_events_rechunking_invariant.2 _ _ (by decide)

/-- Claim C5: for every cache key and read time, a `get` before the
stored entry's `expires_at` returns exactly the stored ResultSet, a `get`
at or after `expires_at` returns absence, and a `put` (on any key,
existing or not) installs the new value with expiry reset to `now + ttl`,
so a later `get` sees exactly the new value strictly before `now + ttl`
and absence from `now + ttl` on. -/
theorem cache_get_put_ttl :
    (∀ (store : CacheStore) (key : JSStr) (now : Nat) (v : List ScoredChunk)
        (expiresAt : Nat), store key = some (v, expiresAt) →
      (now < expiresAt → cacheGet store key now = some v)
      ∧ (expiresAt ≤ now → cacheGet store key now = none))
    ∧ (∀ (store : CacheStore) (key : JSStr) (v : List ScoredChunk) (ttl now : Nat),
        cachePut store key v ttl now key = some (v, now + ttl))
    ∧ (∀ (store : CacheStore) (key : JSStr) (v : List ScoredChunk) (ttl now t : Nat),
        (t < now + ttl → cacheGet (cachePut store key v ttl now) key t = some v)
        ∧ (now + ttl ≤ t → cacheGet (cachePut store key v ttl now) key t = none)) := by
  refine ⟨?_, ?_, ?_⟩
  · intro store key now v expiresAt hstore
    constructor
    · intro hlt
      simp [cacheGet, hstore, hlt]
    · intro hge
      simp [cacheGet, hstore, Nat.not_lt.mpr hge]
  · intro store key v ttl now
    simp [cachePut]
  · intro store key v ttl now t
    constructor
    · intro hlt
      simp [cacheGet, cachePut, hlt]
    · intro hge
      simp [cacheGet, cachePut, Nat.not_lt.mpr hge]

/-- Witness for C5 at a concrete store: an entry stored with
`expires_at = 7` is returned at time `6` and absent at time `7`; a `put`
over an existing key at time `10` with `ttl = 5` replaces the value and
is visible at time `14` and gone at time `15`. -/
theorem cache_get_put_ttl_witness :
    ((fun _ => some ([], 7) : CacheStore) ['k'] = some ([], 7))
    ∧ cacheGet (fun _ => some ([], 7) : CacheStore) ['k'] 6 = some []
    ∧ cacheGet (fun _ => some ([], 7) : CacheStore) ['k'] 7 = none
    ∧ cacheGet (cachePut (fun _ => some ([], 7) : CacheStore) ['k']
        [{ chunk_id := ['c'], document_id := ['d'], score := 2 }] 5 10) ['k'] 14
      = some [{ chunk_id := ['c'], document_id := ['d'], score := 2 }]
    ∧ cacheGet (cachePut (fun _ => some ([], 7) : CacheStore) ['k']
        [{ chunk_id := ['c'], document_id := ['d'], score := 2 }] 5 10) ['k'] 15
      = none := by
  refine ⟨rfl, ?_, ?_, ?_, ?_⟩
  · exact ((cache_get_put_ttl.1 (fun _ => some ([], 7)) ['k'] 6 [] 7 rfl).1 (by decide))
  · exact ((cache_get_put_ttl.1 (fun _ => some ([], 7)) ['k'] 7 [] 7 rfl).2 (by decide))
  · exact ((cache_get_put_ttl.2.2 (fun _ => some ([], 7)) ['k']
      [{ chunk_id := ['c'], document_id := ['d'], score := 2 }] 5 10 14).1 (by decide))
  · exact ((cache_get_put_ttl.2.2 (fun _ => some ([], 7)) ['k']
      [{ chunk_id := ['c'], document_id := ['d'], score := 2 }] 5 10 15).2 (by decide))

/-- Claim C9: when the input trims to the empty string or a stream is in
progress, `handleSend` issues no request and leaves the state (messages,
session id, input, streaming flag) unchanged; otherwise it appends exactly
one user message carrying the trimmed text before issuing the request
`{session_id, message: trimmed}` (and the message list is otherwise
untouched). -/
theorem handleSend_guard_and_append (st : ChatState) :
    (jsTrim st.input = [] ∨ st.streaming = true → handleSend st = (st, none))
    ∧ (jsTrim st.input ≠ [] → st.streaming = false →
        handleSend st =
          ({ st with streaming := true, input := [],
                     messages := st.messages ++
                       [{ id := none, role := Role.user, content := jsTrim st.input,
                          created_at := none, documents := none, support := none,
                          tools := none, chunks := none, toolLogs := none,
                          tool_logs := none }] },
            some (st.sessionId, jsTrim st.input))) := by
  constructor
  · intro h
    have hcond : jsTrim st.input = [] ∨ st.streaming := by
      rcases h with h | h
      · exact Or.inl h
      · exact Or.inr h
    rw [handleSend, if_pos hcond]
  · intro h1 h2
    have hcond : ¬(jsTrim st.input = [] ∨ st.streaming) := by
      rw [h2]
      simp [h1]
    rw [handleSend, if_neg hcond]
    rfl

/-- Witness for C9 at concrete states: with a whitespace-only input
nothing happens; with input `' hi '` and no stream in progress, the issued
request carries the trimmed text `hi`. -/
theorem handleSend_guard_and_append_witness :
    (jsTrim [' ', ' '] = [] ∨
      ({ sessionId := none, messages := [], input := [' ', ' '], streaming := false } :
        ChatState).streaming = true)
    ∧ handleSend { sessionId := none, messages := [], input := [' ', ' '], streaming := false }
      = ({ sessionId := none, messages := [], input := [' ', ' '], streaming := false }, none)
    ∧ jsTrim [' ', 'h', 'i', ' '] ≠ []
    ∧ (handleSend { sessionId := none, messages := [], input := [' ', 'h', 'i', ' '], streaming := false }).2
      = some (none, ['h', 'i']) := by
  refine ⟨Or.inl (by decide), ?_, by decide, ?_⟩
  · exact (handleSend_guard_and_append
      { sessionId := none, messages := [], input := [' ', ' '], streaming := false }).1
      (Or.inl (by decide))
  · rw [(handleSend_guard_and_append
      { sessionId := none, messages := [], input := [' ', 'h', 'i', ' '], streaming := false }).2
      (by decide) rfl]
    decide

/-- Counterexample to C8 as stated: `streamChat` throws even though the
HTTP response is ok — an ok response whose `body` is `null` makes it throw
`Error('No stream body')` (`api.ts`: `if (!res.body) throw ...`), so
`throws if and only if the response is not ok` fails for `streamChat`. -/
theorem streamChat_throws_on_ok_bodyless_response :
    ({ ok := true, statusText := [], bodyText := [], json := (), body := none } :
      Response Unit).ok = true
    ∧ streamChat (none, [])
        { ok := true, statusText := [], bodyText := [], json := (), body := none }
      = Except.error noStreamBodyMsg := by
  constructor
  · rfl
  · rfl

/-- Claim C8 (amended): the eight JSON/void API client functions throw
exactly when the response is not ok, with message equal to the body text
when non-empty and the status text otherwise, and `handleResponse`
returns an ok response unchanged; `streamChat` additionally throws
`No stream body` when the response is ok but carries no body, and
succeeds exactly on an ok response with a body. -/
theorem api_error_handling :
    (∀ (α : Type) (res : Response α), res.ok = true → handleResponse res = Except.ok res)
    ∧ (∀ (α : Type) (res : Response α), res.ok = false →
        handleResponse res =
          Except.error (if res.bodyText = [] then res.statusText else res.bodyText))
    ∧ (∀ res : Response (List Session), res.ok = true →
        fetchSessions res = Except.ok res.json)
    ∧ (∀ res : Response (List Session), res.ok = false →
        fetchSessions res =
          Except.error (if res.bodyText = [] then res.statusText else res.bodyText))
    ∧ (∀ (t : Option (Option JSStr)) (res : Response Session),
        createSession t res = (handleResponse res).map fun r => r.json)
    ∧ (∀ (s t : JSStr) (res : Response Session),
        renameSession s t res = (handleResponse res).map fun r => r.json)
    ∧ (∀ (s : JSStr) (res : Response Unit),
        deleteSession s res = (handleResponse res).map fun _ => ())
    ∧ (∀ (s : JSStr) (res : Response (List ChatMessage)),
        fetchMessages s res = (handleResponse res).map fun r => r.json)
    ∧ (∀ res : Response (List DocumentItem),
        fetchDocuments res = (handleResponse res).map fun r => r.json)
    ∧ (∀ (s : JSStr) (res : Response Unit),
        deleteDocument s res = (handleResponse res).map fun _ => ())
    ∧ (∀ (s : JSStr) (res : Response Unit),
        uploadDocument s res = (handleResponse res).map fun _ => ())
    ∧ (∀ (p : Option JSStr × JSStr) (res : Response Unit), res.ok = false →
        streamChat p res =
          Except.error (if res.bodyText = [] then res.statusText else res.bodyText))
    ∧ (∀ (p : Option JSStr × JSStr) (res : Response Unit), res.ok = true →
        res.body = none → streamChat p res = Except.error noStreamBodyMsg)
    ∧ (∀ (p : Option JSStr × JSStr) (res : Response Unit) (chunks : List JSStr),
        res.ok = true → res.body = some chunks →
        streamChat p res = Except.ok (streamChatEvents chunks)) := by
  refine ⟨?_, ?_, ?_, ?_, fun t res => rfl, fun s t res => rfl, fun s res => rfl,
    fun s res => rfl, fun res => rfl, fun s res => rfl, fun s res => rfl, ?_, ?_, ?_⟩
  · intro α res h
    rw [handleResponse, if_pos h]
  · intro α res h
    rw [handleResponse, if_neg (by simp [h])]
  · intro res h
    rw [fetchSessions, handleResponse, if_pos h]
    rfl
  · intro res h
    rw [fetchSessions, handleResponse, if_neg (by simp [h])]
    rfl
  · intro p res h
    rw [streamChat, handleResponse, if_neg (by simp [h])]
  · intro p res h hbody
    simp [streamChat, handleResponse, h, hbody]
  · intro p res chunks h hbody
    simp [streamChat, handleResponse, h, hbody]

/-- Witness for C8 (amended) at concrete responses: a failed response
with body text `bad` makes `fetchSessions` throw `bad`; a failed response
with empty body text makes it throw the status text; an ok response passes
`handleResponse` unchanged; an ok response with a body makes `streamChat`
succeed. -/
theorem api_error_handling_witness :
    ({ ok := false, statusText := ['s'], bodyText := ['b', 'a', 'd'], json := ([] : List Session), body := none } : Response (List Session)).ok = false
    ∧ fetchSessions { ok := false, statusText := ['s'], bodyText := ['b', 'a', 'd'], json := [], body := none }
      = Except.error ['b', 'a', 'd']
    ∧ fetchSessions { ok := false, statusText := ['s'], bodyText := [], json := [], body := none }
      = Except.error ['s']
    ∧ handleResponse { ok := true, statusText := [], bodyText := [], json := (), body := none }
      = Except.ok { ok := true, statusText := [], bodyText := [], json := (), body := none }
    ∧ streamChat (none, []) { ok := true, statusText := [], bodyText := [], json := (), body := some [] }
      = Except.ok [] := by
  refine ⟨rfl, ?_, ?_, ?_, ?_⟩
  · have := api_error_handling.2.2.2.1
      { ok := false, statusText := ['s'], bodyText := ['b', 'a', 'd'], json := [], body := none }
      rfl
    simpa using this
  · have := api_error_handling.2.2.2.1
      { ok := false, statusText := ['s'], bodyText := [], json := ([] : List Session), body := none }
      rfl
    simpa using this
  · exact api_error_handling.1 Unit
      { ok := true, statusText := [], bodyText := [], json := (), body := none } rfl
  · have := api_error_handling.2.2.2.2.2.2.2.2.2.2.2.2.2 (none, [])
      { ok := true, statusText := [], bodyText := [], json := (), body := some [] } [] rfl rfl
    simpa [streamChatEvents, streamChatAux] using this

/-- Counterexample to C2 as stated: the declared `final` variant makes
`tool_logs` optional (`tool_logs?: ToolLog[]`), so a well-typed terminal
event need not carry the tool log: here is one without it.  (The variant
also carries a `support` flag that the claimed field list does not
name.) -/
theorem final_event_without_tool_logs :
    isFinalEv (ChatStreamEvent.final [] [] [] false [] [] none) = true
    ∧ finalToolLogs (ChatStreamEvent.final [] [] [] false [] [] none) = some none := by
  exact ⟨rfl, rfl⟩

/-- Claim C2 (amended): a terminal event carries exactly the declared
payload fields `session_id`, `text`, `documents`, `support`, `tools`,
`chunks` and an optional `tool_logs` — the first six are always present
with the declared element shapes, while `tool_logs` is optional: the
declared type admits terminal events both with and without it. -/
theorem final_event_declared_shape :
    (∀ e : ChatStreamEvent, isFinalEv e = true →
      ∃ (sid text : JSStr) (docs : List DocumentRef) (sup : Bool)
        (tools : List JSStr) (chunks : List ChunkRef) (tlogs : Option (List ToolLog)),
        e = ChatStreamEvent.final sid text docs sup tools chunks tlogs
        ∧ finalToolLogs e = some tlogs)
    ∧ (∃ e : ChatStreamEvent, isFinalEv e = true ∧ finalToolLogs e = some none)
    ∧ (∃ (e : ChatStreamEvent) (tl : List ToolLog),
        isFinalEv e = true ∧ finalToolLogs e = some (some tl)) := by
  refine ⟨?_, ⟨ChatStreamEvent.final [] [] [] false [] [] none, rfl, rfl⟩,
    ⟨ChatStreamEvent.final [] [] [] false [] [] (some []), [], rfl, rfl⟩⟩
  intro e he
  cases e with
  | delta t => simp [isFinalEv] at he
  | final sid text docs sup tools chunks tlogs =>
    exact ⟨sid, text, docs, sup, tools, chunks, tlogs, rfl, rfl⟩
  | tool logs ids chunks => simp [isFinalEv] at he

/-- Witness for C2 (amended) at a concrete terminal event. -/
theorem final_event_declared_shape_witness :
    isFinalEv (ChatStreamEvent.final ['s'] ['t'] [] true [] [] (some [])) = true
    ∧ ∃ (sid text : JSStr) (docs : List DocumentRef) (sup : Bool)
        (tools : List JSStr) (chunks : List ChunkRef) (tlogs : Option (List ToolLog)),
        ChatStreamEvent.final ['s'] ['t'] [] true [] [] (some [])
          = ChatStreamEvent.final sid text docs sup tools chunks tlogs
        ∧ finalToolLogs (ChatStreamEvent.final ['s'] ['t'] [] true [] [] (some []))
          = some tlogs := by
  exact ⟨rfl, final_event_declared_shape.1
    (ChatStreamEvent.final ['s'] ['t'] [] true [] [] (some [])) rfl⟩

/-- Counterexample to C6 as stated: the surfaced `ToolLog` shape declares
`args?` and `content?` optional, so an entry need not carry the arguments
or the result; here is a well-typed surfaced entry with neither.  (The
frontend renders `log.args` and `log.content` conditionally, exercising
exactly this optionality.) -/
theorem toolLog_entry_without_args_and_result :
    ({ kind := ToolKind.call, tool := retrieveName, args := none, content := none } :
      ToolLog).args = none
    ∧ ({ kind := ToolKind.call, tool := retrieveName, args := none, content := none } :
      ToolLog).content = none := by
  exact ⟨rfl, rfl⟩

theorem pairedLog_append_pair {l : List ToolCallRecord} (name args : JSStr)
    (res : ToolResultV) (h : PairedLog l) :
    PairedLog (l ++
      [{ kind := ToolKind.call, tool_name := name, arguments := args, result := none },
       { kind := ToolKind.ret, tool_name := name, arguments := args,
         result := some res }]) := by
  induction h with
  | nil => exact PairedLog.pair name args res [] PairedLog.nil
  | pair n a r rest hrest ih => exact PairedLog.pair n a r _ ih

theorem agentLoop_log_paired (llm : List CtxItem → LLMAction)
    (retrieve : JSStr → List ScoredChunk) (minScore : Int) (sid : JSStr) :
    ∀ (fuel : Nat) (ctx : List CtxItem) (ry : Bool) (accLog : List ToolCallRecord)
      (accRet : List (List ScoredChunk)), PairedLog accLog →
      PairedLog (agentLoopAux llm retrieve minScore sid fuel ctx ry accLog accRet).log := by
  intro fuel
  induction fuel with
  | zero =>
    intro ctx ry accLog accRet h
    rw [agentLoopAux]
    cases hllm : llm ctx with
    | reply tokens =>
      cases ry <;> simp [hllm] <;> exact h
    | transferToSupport reason =>
      simp [hllm]
      exact pairedLog_append_pair supportName reason ToolResultV.ack h
    | retrieveDocument q =>
      simp [hllm]
      exact h
  | succ fuel ih =>
    intro ctx ry accLog accRet h
    rw [agentLoopAux]
    cases hllm : llm ctx with
    | reply tokens =>
      cases ry <;> simp [hllm] <;> exact h
    | transferToSupport reason =>
      simp [hllm]
      exact pairedLog_append_pair supportName reason ToolResultV.ack h
    | retrieveDocument q =>
      simp only [hllm]
      by_cases hemp : (floorFilter minScore (retrieve q)).isEmpty
      · simp [hemp]
        exact pairedLog_append_pair retrieveName q
          (ToolResultV.chunks (floorFilter minScore (retrieve q))) h
      · simp [hemp]
        exact ih _ _ _ _ (pairedLog_append_pair retrieveName q
          (ToolResultV.chunks (floorFilter minScore (retrieve q))) h)

/-- Claim C6 (amended): every surfaced tool-log entry and every backend
ToolCallRecord has kind `call` or `return` and always carries the tool
name; the arguments and the result are optional in the surfaced shape (a
`call` record carries the arguments and no result, the matching `return`
record carries the result); the spec-modelled agent loop appends one such
call/return pair per executed tool step, in step order. -/
theorem toolLog_kinds_and_step_pairing :
    (∀ l : ToolLog, l.kind = ToolKind.call ∨ l.kind = ToolKind.ret)
    ∧ (∀ r : ToolCallRecord, r.kind = ToolKind.call ∨ r.kind = ToolKind.ret)
    ∧ (∀ (llm : List CtxItem → LLMAction) (retrieve : JSStr → List ScoredChunk)
        (minScore : Int) (budget : Nat) (sid userText : JSStr),
        PairedLog (agentTurn llm retrieve minScore budget sid userText).log) := by
  refine ⟨?_, ?_, ?_⟩
  · intro l
    cases hl : l.kind
    · exact Or.inl rfl
    · exact Or.inr rfl
  · intro r
    cases hr : r.kind
    · exact Or.inl rfl
    · exact Or.inr rfl
  · intro llm retrieve minScore budget sid userText
    have := agentLoop_log_paired llm retrieve minScore sid budget
      [CtxItem.userMsg userText] false [] [] PairedLog.nil
    simpa [agentTurn] using this

theorem getLast?_cons_of_ne_nil {α : Type} (x : α) {l : List α} (h : l ≠ []) :
    (x :: l).getLast? = l.getLast? := by
  cases l with
  | nil => exact absurd rfl h
  | cons y ys => exact List.getLast?_cons_cons

/-- Result sets accumulated so far stay in the turn's retrieval trace. -/
theorem agentLoop_retrieved_mem (llm : List CtxItem → LLMAction)
    (retrieve : JSStr → List ScoredChunk) (minScore : Int) (sid : JSStr) :
    ∀ (fuel : Nat) (ctx : List CtxItem) (ry : Bool) (accLog : List ToolCallRecord)
      (accRet : List (List ScoredChunk)) (x : List ScoredChunk), x ∈ accRet →
      x ∈ (agentLoopAux llm retrieve minScore sid fuel ctx ry accLog accRet).retrieved := by
  intro fuel
  induction fuel with
  | zero =>
    intro ctx ry accLog accRet x hx
    rw [agentLoopAux]
    cases hllm : llm ctx with
    | reply tokens => cases ry <;> simpa [hllm] using hx
    | transferToSupport reason => simpa [hllm] using hx
    | retrieveDocument q => simpa [hllm] using hx
  | succ fuel ih =>
    intro ctx ry accLog accRet x hx
    rw [agentLoopAux]
    cases hllm : llm ctx with
    | reply tokens => cases ry <;> simpa [hllm] using hx
    | transferToSupport reason => simpa [hllm] using hx
    | retrieveDocument q =>
      by_cases hemp : (floorFilter minScore (retrieve q)).isEmpty
      · simp [hllm, hemp]
        exact Or.inl hx
      · simp [hllm, hemp]
        exact ih _ _ _ _ x (List.mem_append_left _ hx)

/-- The loop performs at most `fuel` further retrievals. -/
theorem agentLoop_retrieved_length (llm : List CtxItem → LLMAction)
    (retrieve : JSStr → List ScoredChunk) (minScore : Int) (sid : JSStr) :
    ∀ (fuel : Nat) (ctx : List CtxItem) (ry : Bool) (accLog : List ToolCallRecord)
      (accRet : List (List ScoredChunk)),
      (agentLoopAux llm retrieve minScore sid fuel ctx ry accLog accRet).retrieved.length
        ≤ accRet.length + fuel := by
  intro fuel
  induction fuel with
  | zero =>
    intro ctx ry accLog accRet
    rw [agentLoopAux]
    cases hllm : llm ctx with
    | reply tokens => cases ry <;> simp [hllm]
    | transferToSupport reason => simp [hllm]
    | retrieveDocument q => simp [hllm]
  | succ fuel ih =>
    intro ctx ry accLog accRet
    rw [agentLoopAux]
    cases hllm : llm ctx with
    | reply tokens => cases ry <;> simp [hllm]
    | transferToSupport reason => simp [hllm]
    | retrieveDocument q =>
      by_cases hemp : (floorFilter minScore (retrieve q)).isEmpty
      · simp [hllm, hemp]
      · simp [hllm, hemp]
        have := ih (ctx ++ [CtxItem.toolResult (floorFilter minScore (retrieve q))]) true
          (accLog ++
            [{ kind := ToolKind.call, tool_name := retrieveName, arguments := q,
               result := none },
             { kind := ToolKind.ret, tool_name := retrieveName, arguments := q,
               result := some (ToolResultV.chunks (floorFilter minScore (retrieve q))) }])
          (accRet ++ [retrieve q])
        simp at this
        omega

/-- Every turn of the loop terminates in the `DONE` state. -/
theorem agentLoop_ends_done (llm : List CtxItem → LLMAction)
    (retrieve : JSStr → List ScoredChunk) (minScore : Int) (sid : JSStr) :
    ∀ (fuel : Nat) (ctx : List CtxItem) (ry : Bool) (accLog : List ToolCallRecord)
      (accRet : List (List ScoredChunk)),
      (agentLoopAux llm retrieve minScore sid fuel ctx ry accLog
        accRet).states.getLast? = some OState.DONE := by
  intro fuel
  induction fuel with
  | zero =>
    intro ctx ry accLog accRet
    rw [agentLoopAux]
    cases hllm : llm ctx with
    | reply tokens => cases ry <;> simp [hllm]
    | transferToSupport reason => simp [hllm]
    | retrieveDocument q => simp [hllm]
  | succ fuel ih =>
    intro ctx ry accLog accRet
    rw [agentLoopAux]
    cases hllm : llm ctx with
    | reply tokens => cases ry <;> simp [hllm]
    | transferToSupport reason => simp [hllm]
    | retrieveDocument q =>
      by_cases hemp : (floorFilter minScore (retrieve q)).isEmpty
      · simp [hllm, hemp]
      · simp only [hllm, hemp]
        simp only [Bool.false_eq_true, if_false]
        have hdone := ih (ctx ++ [CtxItem.toolResult (floorFilter minScore (retrieve q))])
          true
          (accLog ++
            [{ kind := ToolKind.call, tool_name := retrieveName, arguments := q,
               result := none },
             { kind := ToolKind.ret, tool_name := retrieveName, arguments := q,
               result := some (ToolResultV.chunks (floorFilter minScore (retrieve q))) }])
          (accRet ++ [retrieve q])
        have hne : (agentLoopAux llm retrieve minScore sid fuel
            (ctx ++ [CtxItem.toolResult (floorFilter minScore (retrieve q))]) true
            (accLog ++
              [{ kind := ToolKind.call, tool_name := retrieveName, arguments := q,
                 result := none },
               { kind := ToolKind.ret, tool_name := retrieveName, arguments := q,
                 result := some (ToolResultV.chunks (floorFilter minScore
                   (retrieve q))) }])
            (accRet ++ [retrieve q])).states ≠ [] := by
          intro hnil
          rw [hnil] at hdone
          simp at hdone
        rw [getLast?_cons_of_ne_nil _ hne]
        exact hdone

theorem floorFilter_eq_nil {minScore : Int} {rs : List ScoredChunk}
    (h : ∀ c ∈ rs, c.score < minScore) : floorFilter minScore rs = [] := by
  rw [floorFilter, List.filter_eq_nil_iff]
  intro c hc
  simp only [decide_eq_true_eq]
  exact Int.not_le.mpr (h c hc)

/-- Core of the escalation guarantee: started before any retrieval, if
every result set obtained during the run scores entirely below the floor
and at least one retrieval happens, the loop decides `ESCALATED` and never
enters `ANSWERING`. -/
theorem agentLoop_escalates_below_floor (llm : List CtxItem → LLMAction)
    (retrieve : JSStr → List ScoredChunk) (minScore : Int) (sid : JSStr) :
    ∀ (fuel : Nat) (ctx : List CtxItem) (accLog : List ToolCallRecord)
      (accRet : List (List ScoredChunk)),
      (∀ rs ∈ (agentLoopAux llm retrieve minScore sid fuel ctx false accLog
          accRet).retrieved, ∀ c ∈ rs, c.score < minScore) →
      (agentLoopAux llm retrieve minScore sid fuel ctx false accLog accRet).retrieved
        ≠ accRet →
      (agentLoopAux llm retrieve minScore sid fuel ctx false accLog accRet).decision
        = OState.ESCALATED
      ∧ OState.ANSWERING ∉
          (agentLoopAux llm retrieve minScore sid fuel ctx false accLog accRet).states := by
  intro fuel ctx accLog accRet hbelow hne
  rw [agentLoopAux] at hbelow hne ⊢
  cases hllm : llm ctx with
  | reply tokens => simp [hllm] at hne
  | transferToSupport reason => simp [hllm]
  | retrieveDocument q =>
    cases fuel with
    | zero => simp [hllm] at hne
    | succ fuel' =>
      by_cases hemp : (floorFilter minScore (retrieve q)).isEmpty
      · simp [hllm, hemp]
      · exfalso
        simp only [hllm, hemp, Bool.false_eq_true, if_false] at hbelow
        have hmem : retrieve q ∈ (agentLoopAux llm retrieve minScore sid fuel'
            (ctx ++ [CtxItem.toolResult (floorFilter minScore (retrieve q))]) true
            (accLog ++
              [{ kind := ToolKind.call, tool_name := retrieveName, arguments := q,
                 result := none },
               { kind := ToolKind.ret, tool_name := retrieveName, arguments := q,
                 result := some (ToolResultV.chunks (floorFilter minScore
                   (retrieve q))) }])
            (accRet ++ [retrieve q])).retrieved :=
          agentLoop_retrieved_mem llm retrieve minScore sid fuel' _ true _ _
            (retrieve q) (by simp)
        have hrs := hbelow (retrieve q) hmem
        have hnil := floorFilter_eq_nil hrs
        rw [hnil] at hemp
        exact hemp rfl

/-- Claim C3: for any reachable agent-turn execution in which at least
one retrieval happens and every retrieval result scores below the
minimum-score floor, the orchestrator never enters `ANSWERING` and the
turn terminates with the `ESCALATED` decision (reaching `DONE`). -/
theorem escalation_guarantee_below_floor (llm : List CtxItem → LLMAction)
    (retrieve : JSStr → List ScoredChunk) (minScore : Int) (budget : Nat)
    (sid userText : JSStr)
    (hbelow : ∀ rs ∈ (agentTurn llm retrieve minScore budget sid userText).retrieved,
      ∀ c ∈ rs, c.score < minScore)
    (hsome : (agentTurn llm retrieve minScore budget sid userText).retrieved ≠ []) :
    (agentTurn llm retrieve minScore budget sid userText).decision = OState.ESCALATED
    ∧ OState.ANSWERING ∉ (agentTurn llm retrieve minScore budget sid userText).states
    ∧ (agentTurn llm retrieve minScore budget sid userText).states.getLast?
      = some OState.DONE := by
  have hcore := agentLoop_escalates_below_floor llm retrieve minScore sid budget
    [CtxItem.userMsg userText] [] [] (by simpa [agentTurn] using hbelow)
    (by simpa [agentTurn] using hsome)
  have hdone := agentLoop_ends_done llm retrieve minScore sid budget
    [CtxItem.userMsg userText] false [] []
  have hstne : (agentLoopAux llm retrieve minScore sid budget
      [CtxItem.userMsg userText] false [] []).states ≠ [] := by
    intro hnil
    rw [hnil] at hdone
    simp at hdone
  refine ⟨by simpa [agentTurn] using hcore.1, ?_, ?_⟩
  · simp only [agentTurn, List.mem_cons]
    rintro (habs | habs)
    · exact absurd habs (by decide)
    · exact hcore.2 habs
  · simp only [agentTurn]
    rw [getLast?_cons_of_ne_nil _ hstne]
    exact hdone

/-- Witness for C3 at a concrete turn: an LLM that always asks for
retrieval, a retrieval engine whose single result scores `0` against a
floor of `1`, and budget `2`: one retrieval happens, every result is
below the floor, and the turn escalates without ever answering. -/
theorem escalation_guarantee_below_floor_witness :
    (∀ rs ∈ (agentTurn (fun _ => LLMAction.retrieveDocument ['q'])
        (fun _ => [{ chunk_id := ['c'], document_id := ['d'], score := 0 }])
        1 2 ['s'] ['u']).retrieved, ∀ c ∈ rs, c.score < 1)
    ∧ (agentTurn (fun _ => LLMAction.retrieveDocument ['q'])
        (fun _ => [{ chunk_id := ['c'], document_id := ['d'], score := 0 }])
        1 2 ['s'] ['u']).retrieved ≠ []
    ∧ (agentTurn (fun _ => LLMAction.retrieveDocument ['q'])
        (fun _ => [{ chunk_id := ['c'], document_id := ['d'], score := 0 }])
        1 2 ['s'] ['u']).decision = OState.ESCALATED
    ∧ OState.ANSWERING ∉ (agentTurn (fun _ => LLMAction.retrieveDocument ['q'])
        (fun _ => [{ chunk_id := ['c'], document_id := ['d'], score := 0 }])
        1 2 ['s'] ['u']).states := by
  refine ⟨by decide, by decide, ?_⟩
  have := escalation_guarantee_below_floor (fun _ => LLMAction.retrieveDocument ['q'])
    (fun _ => [{ chunk_id := ['c'], document_id := ['d'], score := 0 }])
    1 2 ['s'] ['u'] (by decide) (by decide)
  exact ⟨this.1, this.2.1⟩

/-- Claim C4: the loop performs at most the configured maximum number of
tool-call iterations and terminates (reaching `DONE`); and for every LLM
behaviour that requests another retrieval at every step, the turn ends
with the `ESCALATED` decision. -/
theorem tool_budget_bound (llm : List CtxItem → LLMAction)
    (retrieve : JSStr → List ScoredChunk) (minScore : Int) (budget : Nat)
    (sid userText : JSStr) :
    ((agentTurn llm retrieve minScore budget sid userText).retrieved.length ≤ budget
      ∧ (agentTurn llm retrieve minScore budget sid userText).states.getLast?
        = some OState.DONE)
    ∧ ((∀ ctx, ∃ q, llm ctx = LLMAction.retrieveDocument q) →
        (agentTurn llm retrieve minScore budget sid userText).decision
          = OState.ESCALATED) := by
  have hdone := agentLoop_ends_done llm retrieve minScore sid budget
    [CtxItem.userMsg userText] false [] []
  have hstne : (agentLoopAux llm retrieve minScore sid budget
      [CtxItem.userMsg userText] false [] []).states ≠ [] := by
    intro hnil
    rw [hnil] at hdone
    simp at hdone
  refine ⟨⟨?_, ?_⟩, ?_⟩
  · have := agentLoop_retrieved_length llm retrieve minScore sid budget
      [CtxItem.userMsg userText] false [] []
    simpa [agentTurn] using this
  · simp only [agentTurn]
    rw [getLast?_cons_of_ne_nil _ hstne]
    exact hdone
  · intro hllm
    suffices h : ∀ (fuel : Nat) (ctx : List CtxItem) (ry : Bool)
        (accLog : List ToolCallRecord) (accRet : List (List ScoredChunk)),
        (agentLoopAux llm retrieve minScore sid fuel ctx ry accLog accRet).decision
          = OState.ESCALATED by
      simpa [agentTurn] using h budget [CtxItem.userMsg userText] false [] []
    intro fuel
    induction fuel with
    | zero =>
      intro ctx ry accLog accRet
      obtain ⟨q, hq⟩ := hllm ctx
      rw [agentLoopAux]
      simp [hq]
    | succ fuel ih =>
      intro ctx ry accLog accRet
      obtain ⟨q, hq⟩ := hllm ctx
      rw [agentLoopAux]
      by_cases hemp : (floorFilter minScore (retrieve q)).isEmpty
      · simp [hq, hemp]
      · simp [hq, hemp]
        exact ih _ _ _ _

/-- Witness for C4 at a concrete turn: the always-retrieving LLM against
a retrieval engine whose results clear the floor runs exactly `2`
retrievals under budget `2` and ends escalated. -/
theorem tool_budget_bound_witness :
    (agentTurn (fun _ => LLMAction.retrieveDocument ['q'])
      (fun _ => [{ chunk_id := ['c'], document_id := ['d'], score := 5 }])
      1 2 ['s'] ['u']).retrieved.length ≤ 2
    ∧ (∀ ctx, ∃ q, (fun _ : List CtxItem => LLMAction.retrieveDocument ['q']) ctx
        = LLMAction.retrieveDocument q)
    ∧ (agentTurn (fun _ => LLMAction.retrieveDocument ['q'])
        (fun _ => [{ chunk_id := ['c'], document_id := ['d'], score := 5 }])
        1 2 ['s'] ['u']).decision = OState.ESCALATED
    ∧ (agentTurn (fun _ => LLMAction.retrieveDocument ['q'])
        (fun _ => [{ chunk_id := ['c'], document_id := ['d'], score := 5 }])
        1 2 ['s'] ['u']).retrieved.length = 2 := by
  have h := tool_budget_bound (fun _ => LLMAction.retrieveDocument ['q'])
    (fun _ => [{ chunk_id := ['c'], document_id := ['d'], score := 5 }]) 1 2 ['s'] ['u']
  exact ⟨h.1.1, fun ctx => ⟨['q'], rfl⟩, h.2 (fun ctx => ⟨['q'], rfl⟩), by decide⟩

/-- Behaviour of `updateAssistant` on a list ending with an assistant
message: that message is rewritten in place. -/
theorem updateAssistant_last_assistant (updater : JSStr → JSStr)
    (docs : Option (List DocumentRef)) (tools : Option (List JSStr))
    (chunks : Option (List ChunkRef)) (toolLogs : Option (List ToolLog))
    (base : List ChatMessage) (m : ChatMessage) (hrole : m.role = Role.assistant) :
    updateAssistant updater docs tools chunks toolLogs (base ++ [m])
      = base ++ [{ m with
          content := updater m.content,
          documents := docs.orElse fun _ => m.documents,
          tools := tools.orElse fun _ => m.tools,
          chunks := chunks.orElse fun _ => m.chunks,
          toolLogs := toolLogs.orElse fun _ => m.toolLogs }] := by
  simp only [updateAssistant, List.getLast?_concat, List.dropLast_concat]
  rw [if_pos hrole]

/-- Behaviour of `updateAssistant` on a list not ending with an assistant
message: a fresh assistant message is pushed. -/
theorem updateAssistant_push_new (updater : JSStr → JSStr)
    (docs : Option (List DocumentRef)) (tools : Option (List JSStr))
    (chunks : Option (List ChunkRef)) (toolLogs : Option (List ToolLog))
    (msgs : List ChatMessage) (h : lastNotAssistant msgs = true) :
    updateAssistant updater docs tools chunks toolLogs msgs
      = msgs ++ [{ id := none, role := Role.assistant, content := updater [],
                   created_at := none, documents := docs, support := none,
                   tools := tools, chunks := chunks, toolLogs := toolLogs,
                   tool_logs := none }] := by
  rw [lastNotAssistant] at h
  cases hlast : msgs.getLast? with
  | none => simp only [updateAssistant, hlast]
  | some current =>
    rw [hlast] at h
    have hne : ¬(current.role = Role.assistant) := by simpa using h
    simp only [updateAssistant, hlast]
    rw [if_neg hne]

/-- Folding non-terminal events over a state whose message list ends with
an assistant message keeps the base intact and appends exactly the delta
tokens, in arrival order, to that assistant message. -/
theorem foldl_onStreamEvent_assistant (es : List ChatStreamEvent) :
    ∀ (st : ChatState) (base : List ChatMessage) (m : ChatMessage),
      (∀ e ∈ es, isFinalEv e = false) → st.messages = base ++ [m] →
      m.role = Role.assistant →
      ∃ m', (List.foldl onStreamEvent st es).messages = base ++ [m']
        ∧ m'.role = Role.assistant ∧ m'.content = m.content ++ deltaTokens es := by
  induction es with
  | nil =>
    intro st base m hno hmsgs hrole
    exact ⟨m, by simpa using hmsgs, hrole, by simp [deltaTokens]⟩
  | cons e es ih =>
    intro st base m hno hmsgs hrole
    cases e with
    | delta t =>
      have hstep : (onStreamEvent st (ChatStreamEvent.delta t)).messages
          = base ++ [{ m with content := m.content ++ t }] := by
        simp only [onStreamEvent, hmsgs]
        rw [updateAssistant_last_assistant _ _ _ _ _ _ _ hrole]
        simp [Option.orElse]
      obtain ⟨m', h1, h2, h3⟩ := ih (onStreamEvent st (ChatStreamEvent.delta t)) base
        { m with content := m.content ++ t }
        (fun e he => hno e (List.mem_cons_of_mem _ he)) hstep hrole
      refine ⟨m', h1, h2, ?_⟩
      rw [h3]
      simp [deltaTokens]
    | final sid text docs sup tools chunks tlogs =>
      have := hno _ (List.mem_cons_self _ _)
      simp [isFinalEv] at this
    | tool logs docIds chunks =>
      have hstep : (onStreamEvent st (ChatStreamEvent.tool logs docIds chunks)).messages
          = base ++ [{ m with chunks := some chunks, toolLogs := some logs }] := by
        simp only [onStreamEvent, hmsgs]
        rw [updateAssistant_last_assistant _ _ _ _ _ _ _ hrole]
        simp [Option.orElse]
      obtain ⟨m', h1, h2, h3⟩ := ih (onStreamEvent st (ChatStreamEvent.tool logs docIds chunks))
        base { m with chunks := some chunks, toolLogs := some logs }
        (fun e he => hno e (List.mem_cons_of_mem _ he)) hstep hrole
      refine ⟨m', h1, h2, ?_⟩
      rw [h3]
      simp [deltaTokens]

theorem mkFinalEvent_isFinal (sid text : JSStr) (sup : Bool) (log : List ToolCallRecord)
    (cited : List ScoredChunk) : isFinalEv (mkFinalEvent sid text sup log cited) = true := by
  rfl

theorem deltas_not_final (tokens : List JSStr) :
    ∀ e ∈ tokens.map ChatStreamEvent.delta, isFinalEv e = false := by
  intro e he
  obtain ⟨t, _, ht⟩ := List.mem_map.mp he
  simp [← ht, isFinalEv]

theorem eventsShaped_concat (pre : List ChatStreamEvent) (fev : ChatStreamEvent)
    (hpre : ∀ e ∈ pre, isFinalEv e = false) (hfin : isFinalEv fev = true) :
    EventsShaped (pre ++ [fev]) :=
  ⟨pre, fev, rfl, hpre, hfin⟩

theorem eventsShaped_cons (ev : ChatStreamEvent) (rest : List ChatStreamEvent)
    (hev : isFinalEv ev = false) (hrest : EventsShaped rest) :
    EventsShaped (ev :: rest) := by
  obtain ⟨pre, fev, heq, hpre, hfin⟩ := hrest
  refine ⟨ev :: pre, fev, by simp [heq], ?_, hfin⟩
  intro e he
  rcases List.mem_cons.mp he with he | he
  · rw [he]; exact hev
  · exact hpre e he

/-- The event stream emitted by the (spec-modelled) agent loop is a
sequence of non-terminal events followed by exactly one terminal event. -/
theorem agentLoop_events_shape (llm : List CtxItem → LLMAction)
    (retrieve : JSStr → List ScoredChunk) (minScore : Int) (sid : JSStr) :
    ∀ (fuel : Nat) (ctx : List CtxItem) (ry : Bool) (accLog : List ToolCallRecord)
      (accRet : List (List ScoredChunk)),
      EventsShaped (agentLoopAux llm retrieve minScore sid fuel ctx ry accLog
        accRet).events := by
  intro fuel
  induction fuel with
  | zero =>
    intro ctx ry accLog accRet
    rw [agentLoopAux]
    cases hllm : llm ctx with
    | reply tokens =>
      cases ry <;> simp only [hllm, if_true, Bool.false_eq_true, if_false] <;>
        exact eventsShaped_concat _ _ (deltas_not_final tokens)
          (mkFinalEvent_isFinal _ _ _ _ _)
    | transferToSupport reason =>
      simp only [hllm]
      exact eventsShaped_concat [] _ (by simp) (mkFinalEvent_isFinal _ _ _ _ _)
    | retrieveDocument q =>
      simp only [hllm]
      exact eventsShaped_concat [] _ (by simp) (mkFinalEvent_isFinal _ _ _ _ _)
  | succ fuel ih =>
    intro ctx ry accLog accRet
    rw [agentLoopAux]
    cases hllm : llm ctx with
    | reply tokens =>
      cases ry <;> simp only [hllm, if_true, Bool.false_eq_true, if_false] <;>
        exact eventsShaped_concat _ _ (deltas_not_final tokens)
          (mkFinalEvent_isFinal _ _ _ _ _)
    | transferToSupport reason =>
      simp only [hllm]
      exact eventsShaped_concat [] _ (by simp) (mkFinalEvent_isFinal _ _ _ _ _)
    | retrieveDocument q =>
      by_cases hemp : (floorFilter minScore (retrieve q)).isEmpty
      · simp only [hllm, hemp, if_true]
        exact eventsShaped_cons _ _ rfl
          (eventsShaped_concat [] _ (by simp) (mkFinalEvent_isFinal _ _ _ _ _))
      · simp only [hllm, hemp, Bool.false_eq_true, if_false]
        exact eventsShaped_cons _ _ rfl (ih _ _ _ _)

/-- Claim C1: (spec-modelled stream side) every agent turn emits zero or
more delta events and tool notices followed by exactly one terminal
event; (client side, from `ChatView.tsx`) consuming such a stream from a
state whose message list does not end in an assistant message, each
delta's token is appended to the in-progress assistant message
immediately in arrival order (after any non-empty prefix of the
non-terminal events, the assistant message's content is exactly the
concatenation of the delta tokens seen so far), and on the terminal event
the assistant message's content equals the terminal event's full text —
the buffered deltas are replaced, never concatenated with it. -/
theorem stream_order_and_client_assembly :
    (∀ (llm : List CtxItem → LLMAction) (retrieve : JSStr → List ScoredChunk)
        (minScore : Int) (budget : Nat) (sid userText : JSStr),
      EventsShaped (agentTurn llm retrieve minScore budget sid userText).events)
    ∧ (∀ (st : ChatState) (pre : List ChatStreamEvent) (sid text : JSStr)
        (docs : List DocumentRef) (sup : Bool) (tools : List JSStr)
        (chunks : List ChunkRef) (tlogs : Option (List ToolLog)),
        lastNotAssistant st.messages = true →
        (∀ e ∈ pre, isFinalEv e = false) →
        (∀ p1 p2, pre = p1 ++ p2 → p1 ≠ [] →
            ∃ m1, (List.foldl onStreamEvent st p1).messages = st.messages ++ [m1]
              ∧ m1.role = Role.assistant ∧ m1.content = deltaTokens p1)
        ∧ ∃ m, (List.foldl onStreamEvent st
              (pre ++ [ChatStreamEvent.final sid text docs sup tools chunks
                tlogs])).messages
            = st.messages ++ [m] ∧ m.role = Role.assistant ∧ m.content = text) := by
  constructor
  · intro llm retrieve minScore budget sid userText
    have := agentLoop_events_shape llm retrieve minScore sid budget
      [CtxItem.userMsg userText] false [] []
    simpa [agentTurn] using this
  · intro st pre sid text docs sup tools chunks tlogs hlast hpre
    have ha : ∀ p1 : List ChatStreamEvent, (∀ e ∈ p1, isFinalEv e = false) → p1 ≠ [] →
        ∃ m1, (List.foldl onStreamEvent st p1).messages = st.messages ++ [m1]
          ∧ m1.role = Role.assistant ∧ m1.content = deltaTokens p1 := by
      intro p1 hp1 hne
      cases p1 with
      | nil => exact absurd rfl hne
      | cons e p1' =>
        cases e with
        | delta t =>
          have hstep : (onStreamEvent st (ChatStreamEvent.delta t)).messages
              = st.messages ++
                [{ id := none, role := Role.assistant, content := [] ++ t,
                   created_at := none, documents := none, support := none,
                   tools := none, chunks := none, toolLogs := none,
                   tool_logs := none }] := by
            simp only [onStreamEvent]
            rw [updateAssistant_push_new _ _ _ _ _ _ hlast]
          obtain ⟨m1, h1, h2, h3⟩ := foldl_onStreamEvent_assistant p1'
            (onStreamEvent st (ChatStreamEvent.delta t)) st.messages _
            (fun e he => hp1 e (List.mem_cons_of_mem _ he)) hstep rfl
          refine ⟨m1, by simpa using h1, h2, ?_⟩
          rw [h3]
          simp [deltaTokens]
        | final s2 t2 d2 u2 o2 c2 l2 =>
          have := hp1 _ (List.mem_cons_self _ _)
          simp [isFinalEv] at this
        | tool logs docIds chunks2 =>
          have hstep : (onStreamEvent st (ChatStreamEvent.tool logs docIds
              chunks2)).messages
              = st.messages ++
                [{ id := none, role := Role.assistant, content := ([] : JSStr),
                   created_at := none, documents := none, support := none,
                   tools := none, chunks := some chunks2, toolLogs := some logs,
                   tool_logs := none }] := by
            simp only [onStreamEvent]
            rw [updateAssistant_push_new _ _ _ _ _ _ hlast]
          obtain ⟨m1, h1, h2, h3⟩ := foldl_onStreamEvent_assistant p1'
            (onStreamEvent st (ChatStreamEvent.tool logs docIds chunks2)) st.messages _
            (fun e he => hp1 e (List.mem_cons_of_mem _ he)) hstep rfl
          refine ⟨m1, by simpa using h1, h2, ?_⟩
          rw [h3]
          simp [deltaTokens]
    constructor
    · intro p1 p2 hsplit hne
      exact ha p1 (fun e he => hpre e (by rw [hsplit]; exact List.mem_append_left _ he))
        hne
    · by_cases hn : pre = []
      · subst hn
        simp only [List.nil_append, List.foldl_cons, List.foldl_nil, onStreamEvent]
        rw [updateAssistant_push_new _ _ _ _ _ _ hlast]
        exact ⟨_, rfl, rfl, rfl⟩
      · obtain ⟨m1, h1, h2, h3⟩ := ha pre hpre hn
        rw [List.foldl_append]
        simp only [List.foldl_cons, List.foldl_nil, onStreamEvent]
        rw [h1, updateAssistant_last_assistant _ _ _ _ _ _ _ h2]
        exact ⟨_, rfl, h2, rfl⟩

/-- Witness for C1: the shape guarantee at a concrete direct-answer turn
(two deltas then the terminal event), and the client assembly at a
concrete state holding one user message, with one delta and one tool
notice before the terminal event: the assistant message ends up carrying
exactly the terminal text `ok`, not the concatenation with the buffered
delta. -/
theorem stream_order_and_client_assembly_witness :
    EventsShaped (agentTurn (fun _ => LLMAction.reply [['h'], ['i']])
      (fun _ => []) 1 4 ['s'] ['u']).events
    ∧ lastNotAssistant
        [{ id := none, role := Role.user, content := ['u'], created_at := none,
           documents := none, support := none, tools := none, chunks := none,
           toolLogs := none, tool_logs := none }] = true
    ∧ (∀ e ∈ [ChatStreamEvent.delta ['h'], ChatStreamEvent.tool [] [] []],
        isFinalEv e = false)
    ∧ ∃ m, (List.foldl onStreamEvent
        { sessionId := none,
          messages := [{ id := none, role := Role.user, content := ['u'],
                         created_at := none, documents := none, support := none,
                         tools := none, chunks := none, toolLogs := none,
                         tool_logs := none }],
          input := [], streaming := true }
        ([ChatStreamEvent.delta ['h'], ChatStreamEvent.tool [] [] []]
          ++ [ChatStreamEvent.final ['s'] ['o', 'k'] [] false [] [] none])).messages
      = [{ id := none, role := Role.user, content := ['u'], created_at := none,
           documents := none, support := none, tools := none, chunks := none,
           toolLogs := none, tool_logs := none }] ++ [m]
      ∧ m.role = Role.assistant ∧ m.content = ['o', 'k'] := by
  refine ⟨stream_order_and_client_assembly.1 _ _ _ _ _ _, by decide, by decide, ?_⟩
  exact (stream_order_and_client_assembly.2
    { sessionId := none,
      messages := [{ id := none, role := Role.user, content := ['u'],
                     created_at := none, documents := none, support := none,
                     tools := none, chunks := none, toolLogs := none,
                     tool_logs := none }],
      input := [], streaming := true }
    [ChatStreamEvent.delta ['h'], ChatStreamEvent.tool [] [] []]
    ['s'] ['o', 'k'] [] false [] [] none (by decide) (by decide)).2

